import Mathlib

/-!
Verification of the metrics/formatting/aggregation core of
`src/streamlit_stock_app.py` against its specification.

Python strings are embedded as lists of code points (`List Nat`); Python
floats appearing in prices and indicator values are embedded as rationals;
fallible calls into third-party providers are abstracted as oracle
functions returning an explicit result type.
-/

set_option maxHeartbeats 1000000
set_option maxRecDepth 10000

namespace StockApp

/-- Code points of a string literal (a Python `str` is a code-point sequence). -/
def cps (s : String) : List Nat := s.data.map Char.toNat

/-! ### Market-cap formatting (src lines 74-86) -/

/-- Most-significant-first decimal digits of a natural number, fuel-based so
that it reduces by kernel computation. -/
def digitsAux : Nat → Nat → List Nat
  | 0, _ => []
  | fuel + 1, n => if n < 10 then [n] else digitsAux fuel (n / 10) ++ [n % 10]

/-- Decimal digits of `n`, most significant first. -/
def digitsOf (n : Nat) : List Nat := digitsAux (n + 1) n

/-- The character for a decimal digit. -/
def digitChar (d : Nat) : Char := Char.ofNat (48 + d)

/-- Plain decimal rendering of a natural number. -/
def natStr (n : Nat) : List Char := (digitsOf n).map digitChar

/-- Digits rendered with a comma between three-digit groups, as in the Python
format specifier for comma-grouped integers used at src line 86. -/
def commaDigits : List Nat → List Char
  | [] => []
  | d :: ds =>
    if ds.length % 3 = 0 ∧ ds ≠ [] then digitChar d :: ',' :: commaDigits ds
    else digitChar d :: commaDigits ds

/-- Comma-grouped integer rendering of a natural number. -/
def commaGrouped (n : Nat) : String := String.mk (commaDigits (digitsOf n))

/-- Nearest-integer rounding of `v * 100 / d` with ties to even, modelling the
two-decimal-place rendering of the quotient `v / d`. -/
def round2HalfEven (v d : Nat) : Nat :=
  let q := v * 100 / d
  let r := v * 100 % d
  if 2 * r < d then q
  else if d < 2 * r then q + 1
  else if q % 2 = 0 then q else q + 1

/-- The quotient `v / d` rendered with exactly two decimal places, modelling
the Python two-decimal float format used at src lines 80, 82 and 84. -/
def fixed2 (v d : Nat) : String :=
  let h := round2HalfEven v d
  String.mk (natStr (h / 100)) ++ "." ++
    String.mk [digitChar (h % 100 / 10), digitChar (h % 100 % 10)]

/-- Embedding of `format_market_cap` (src lines 74-86).  A missing
`marketCap` field reaches this function either as Python `None` (modelled by
`none`) or as the default `0` supplied at the call site on src line 112; both
yield the not-available string.  Thresholds are tested in descending order. -/
def format_market_cap : Option Nat → String
  | none => "N/A"
  | some value =>
    if value = 0 then "N/A"
    else if 1000000000000 ≤ value then "$" ++ fixed2 value 1000000000000 ++ "T"
    else if 1000000000 ≤ value then "$" ++ fixed2 value 1000000000 ++ "B"
    else if 1000000 ≤ value then "$" ++ fixed2 value 1000000 ++ "M"
    else "$" ++ commaGrouped value

/-! ### Ticker-list parsing (src line 394) and truncation (src lines 276-279) -/

/-- Python whitespace code points recognised by `str.strip`. -/
def isPySpaceCP (c : Nat) : Bool :=
  decide (c = 32 ∨ c = 9 ∨ c = 10 ∨ c = 13 ∨ c = 11 ∨ c = 12)

/-- Python `str.split(",")`: each comma separates a (possibly empty) piece. -/
def splitCommaCP : List Nat → List (List Nat)
  | [] => [[]]
  | c :: cs =>
    if c = 44 then [] :: splitCommaCP cs
    else (c :: (splitCommaCP cs).headD []) :: (splitCommaCP cs).tail

/-- Python `str.strip()`: remove whitespace from both ends. -/
def pyStripCP (l : List Nat) : List Nat :=
  ((l.dropWhile isPySpaceCP).reverse.dropWhile isPySpaceCP).reverse

/-- Python `str.upper()` on one code point (ASCII letters). -/
def pyUpperCP (c : Nat) : Nat := if 97 ≤ c ∧ c ≤ 122 then c - 32 else c

/-- `ticker.strip().upper()` as applied on src lines 394, 291 and 516. -/
def normCP (l : List Nat) : List Nat := (pyStripCP l).map pyUpperCP

/-- Embedding of the parse on src line 394: split on commas, keep pieces whose
strip is non-empty, convert kept pieces with strip-then-upper. -/
def parseTickers (input : List Nat) : List (List Nat) :=
  (splitCommaCP input).filterMap fun p =>
    if pyStripCP p = [] then none else some (normCP p)

/-- The ticker list actually analysed: `build_dashboard` (src lines 276-279)
slices to the first ten entries when more than ten were provided. -/
def analyzedTickers (input : List Nat) : List (List Nat) :=
  let t := parseTickers input
  if 10 < t.length then t.take 10 else t

/-- The truncation warning emitted on src line 278. -/
def truncWarning (input : List Nat) : Bool :=
  decide (10 < (parseTickers input).length)

/-! ### Fetch-and-aggregate loop (src lines 286-303) and main control flow -/

/-- The collection loop of `build_dashboard` (src lines 286-297): each ticker
is normalised and fetched in order; a `None` result or a raised exception
(both modelled by `none`) is skipped and the loop continues. -/
def collectData {α : Type} (fetch : List Nat → Option α) (tickers : List (List Nat)) :
    List α :=
  tickers.filterMap fun t => fetch (normCP t)

/-- The two return shapes of `build_dashboard`: src line 303 returns a single
empty DataFrame when no ticker succeeded, while src line 325 returns the pair
of the fundamentals table and the raw per-ticker data. -/
inductive BuildResult (α : Type) where
  | emptyFrame : BuildResult α
  | pair (fundamentals : List α) (allData : List α) : BuildResult α
deriving DecidableEq

/-- Embedding of `build_dashboard` (src lines 270-325).  The fundamentals
table has exactly one row per successful ticker, derived from that entry of
`all_data` (src lines 306-323), so it is carried as the same list. -/
def buildDashboard {α : Type} (fetch : List Nat → Option α)
    (tickers : List (List Nat)) : BuildResult α :=
  let ts := if 10 < tickers.length then tickers.take 10 else tickers
  let rs := collectData fetch ts
  if rs.isEmpty then .emptyFrame else .pair rs rs

/-- Python semantics of the tuple unpacking on src line 401,
`fundamentals, all_data = build_dashboard(...)`: unpacking the two-element
tuple succeeds, while unpacking the bare empty DataFrame returned on src line
303 iterates its (zero) column labels and raises ValueError. -/
def unpackPair {α : Type} : BuildResult α → Except String (List α × List α)
  | .emptyFrame => .error ("ValueError: not enough values to unpack (expected 2, got 0)")
  | .pair f a => .ok (f, a)

/-- Outcome of one triggered analysis run of `main`. -/
inductive MainOutcome where
  | noValidTicker : MainOutcome
  | unpackError (msg : String) : MainOutcome
  | success (analyzedCount : Nat) : MainOutcome
deriving DecidableEq

/-- Observable trace of one triggered analysis run of `main`: its outcome, the
tickers for which a provider fetch was attempted, and how many charts were
rendered. -/
structure MainTrace where
  outcome : MainOutcome
  fetchAttempts : List (List Nat)
  chartsRendered : Nat
deriving DecidableEq

/-- Embedding of the analysis block of `main` (src lines 392-572) for one
triggered run: parse the input (line 394); with no valid ticker report the
sentinel error and return (lines 396-398) with no fetch and no chart;
otherwise run `build_dashboard` and unpack its result (line 401).  When zero
tickers succeeded the unpacking raises, aborting the run before any chart;
otherwise one comparison chart is rendered when more than one result exists
(line 551) plus one trend chart per result (lines 560-572). -/
def runMain {α : Type} (fetch : List Nat → Option α) (input : List Nat) : MainTrace :=
  let tickers := parseTickers input
  if tickers = [] then ⟨.noValidTicker, [], 0⟩
  else
    match unpackPair (buildDashboard fetch tickers) with
    | .error msg => ⟨.unpackError msg, analyzedTickers input, 0⟩
    | .ok (_, allData) =>
      ⟨.success allData.length, analyzedTickers input,
        (if 1 < allData.length then 1 else 0) + allData.length⟩

/-! ### Derived metrics (src lines 99-115)

The rolling mean and the RSI are computed by the third-party pandas and `ta`
libraries, which are not part of this repository; their computations are
modelled from the spec.  The surfacing of the latest value (src lines 114-115)
is embedded from the source. -/

/-- Modelled from the spec: the pandas 50-period rolling mean of src line 100.
Position `i` carries the arithmetic mean of the `w` closes ending at `i`, and
is absent while fewer than `w` observations exist. -/
def rollingMean (w : Nat) (xs : List ℚ) : List (Option ℚ) :=
  (List.range xs.length).map fun i =>
    if i + 1 < w then none
    else some (((xs.take (i + 1)).drop (i + 1 - w)).sum / (w : ℚ))

/-- Embedding of src line 115: the latest rolling-mean entry is surfaced
unless every entry is absent, in which case the metric is not available. -/
def surfacedMA (closes : List ℚ) : Option ℚ :=
  let ma := rollingMean 50 closes
  if ma.all Option.isNone then none
  else
    match ma.getLast? with
    | some o => o
    | none => none

/-- Modelled from the spec: successive close-to-close differences
`close[t] - close[t-1]`. -/
def diffsQ : List ℚ → List ℚ
  | [] => []
  | [_] => []
  | a :: b :: rest => (b - a) :: diffsQ (b :: rest)

/-- Modelled from the spec: per-step gains `max(close[t] - close[t-1], 0)`. -/
def gainsOf (closes : List ℚ) : List ℚ := (diffsQ closes).map fun d => max d 0

/-- Modelled from the spec: per-step losses `max(close[t-1] - close[t], 0)`. -/
def lossesOf (closes : List ℚ) : List ℚ := (diffsQ closes).map fun d => max (-d) 0

/-- Modelled from the spec: one step of the 14-period Wilder smoothing,
`avg = (1 - 1/14) * prev + (1/14) * x`. -/
def wilderStep (acc x : ℚ) : ℚ := (1 - 1 / 14) * acc + (1 / 14) * x

/-- Iterate the Wilder smoothing over a series, keeping the latest value. -/
def wilderRun : ℚ → List ℚ → ℚ
  | acc, [] => acc
  | acc, x :: xs => wilderRun (wilderStep acc x) xs

/-- The latest smoothed average of a series, seeded with its first element;
absent for an empty series. -/
def smoothedLast : List ℚ → Option ℚ
  | [] => none
  | x :: xs => some (wilderRun x xs)

/-- Modelled from the spec, with the surfacing convention of src lines 103 and
114: with fewer than 14 observations the oscillator is not available;
otherwise the latest value is `100 - 100 / (1 + avgGain / avgLoss)`, where a
zero smoothed average loss yields 100. -/
def surfacedRSI (closes : List ℚ) : Option ℚ :=
  if closes.length < 14 then none
  else
    match smoothedLast (gainsOf closes), smoothedLast (lossesOf closes) with
    | some g, some l => some (if l = 0 then 100 else 100 - 100 / (1 + g / l))
    | _, _ => none

/-! ### Wikipedia-summary fallback (src lines 126-181)

The encyclopedia collaborator is abstracted as two oracles: `qS` for the
auto-suggest queries of src line 156 and `qE` for the exact-title queries of
src lines 165 and 172. -/

/-- Possible outcomes of one encyclopedia query. -/
inductive WikiResult where
  | summary (text : String) : WikiResult
  | disambig (options : List String) : WikiResult
  | pageError : WikiResult
  | otherError : WikiResult

/-- Whether a query outcome is a usable summary. -/
def isSummaryResult : WikiResult → Bool
  | .summary _ => true
  | _ => false

/-- Python `str.lower()` on one character (ASCII letters). -/
def pyLowerChar (c : Char) : Char :=
  if 65 ≤ c.toNat ∧ c.toNat ≤ 90 then Char.ofNat (c.toNat + 32) else c

/-- Python `str.lower()`. -/
def pyLower (s : String) : String := String.mk (s.data.map pyLowerChar)

/-- Contiguous-substring test, modelling the Python `in` operator on strings. -/
def containsSub : List Char → List Char → Bool
  | needle, [] => needle.isEmpty
  | needle, c :: cs => needle.isPrefixOf (c :: cs) || containsSub needle cs

/-- The business keywords of src line 160. -/
def businessKeywords : List String :=
  ["inc", "corp", "company", "corporation", "ltd", "technology", "software", "systems"]

/-- The keyword test of src lines 160-163. -/
def isBusinessOption (opt : String) : Bool :=
  businessKeywords.any fun k => containsSub k.data (pyLower opt).data

/-- The inner loop of src lines 161-168: try each business-matching
disambiguation option with an exact query; any non-summary outcome continues. -/
def tryOptions (qE : String → WikiResult) : List String → Option String
  | [] => none
  | o :: os =>
    match qE o with
    | .summary s => some s
    | _ => tryOptions qE os

/-- The disambiguation handler of src lines 158-175: first the
business-matching options in order, then the first option; failure of all of
them falls through to the next search term. -/
def handleDisambig (qE : String → WikiResult) (options : List String) :
    Option String :=
  match tryOptions qE (options.filter isBusinessOption) with
  | some s => some s
  | none =>
    match options with
    | [] => none
    | o :: _ =>
      match qE o with
      | .summary s => some s
      | _ => none

/-- One iteration of the outer loop of src lines 154-179: an auto-suggest
query whose disambiguation outcome is handled and whose page-error or other
failure falls through. -/
def tryTerm (qS qE : String → WikiResult) (term : String) : Option String :=
  match qS term with
  | .summary s => some s
  | .disambig opts => handleDisambig qE opts
  | .pageError => none
  | .otherError => none

/-- The fallback query sequence of src lines 136-152: company-name plus suffix
variants when a company name is known, then ticker plus context variants, then
the bare ticker. -/
def searchTerms (companyName : Option String) (ticker : String) : List String :=
  (match companyName with
   | some n => [n ++ " Inc", n ++ " Corporation", n ++ " Company", n]
   | none => []) ++
  [ticker ++ " stock", ticker ++ " company", ticker ++ " corporation", ticker]

/-- The outer loop of src lines 154-179: first term that yields a summary. -/
def firstSummary (qS qE : String → WikiResult) : List String → Option String
  | [] => none
  | t :: ts =>
    match tryTerm qS qE t with
    | some s => some s
    | none => firstSummary qS qE ts

/-- Embedding of `get_wikipedia_summary` (src lines 126-181): every failure
path degrades to the fixed placeholder string of src line 181. -/
def get_wikipedia_summary (qS qE : String → WikiResult)
    (companyName : Option String) (ticker : String) : String :=
  match firstSummary qS qE (searchTerms companyName ticker) with
  | some s => s
  | none => "Wikipedia summary not found."

/-! ### Per-ticker detail panels (src lines 584-629) -/

/-- Python truthiness of a possibly-absent numeric value, as used by the
`if rsi_value:` test on src line 585 and the `if ma_value and current_price:`
test on src line 608: `None` and the number zero are both falsy. -/
def pyTruthy (v : Option ℚ) : Bool :=
  match v with
  | none => false
  | some x => decide (x ≠ 0)

/-- What the RSI half of the detail panel displays (src lines 584-602). -/
inductive RsiPanel where
  | na : RsiPanel
  | overbought (v : ℚ) : RsiPanel
  | oversold (v : ℚ) : RsiPanel
  | balanced (v : ℚ) : RsiPanel
deriving DecidableEq

/-- Embedding of src lines 584-602: the RSI metric is shown only when the
stored value is truthy, with the 70/30 bands of src lines 588 and 592;
otherwise the panel shows the not-available marker. -/
def rsiPanel (rsi : Option ℚ) : RsiPanel :=
  if pyTruthy rsi then
    match rsi with
    | some v => if 70 < v then .overbought v else if v < 30 then .oversold v else .balanced v
    | none => .na
  else .na

/-- What the moving-average half of the detail panel displays
(src lines 604-629). -/
inductive MaPanel where
  | na : MaPanel
  | bullish (price ma : ℚ) : MaPanel
  | bearish (price ma : ℚ) : MaPanel
deriving DecidableEq

/-- Embedding of src lines 604-629: the moving-average metrics are shown only
when both the stored average and the stored price are truthy (src line 608),
with the trend decided by `current_price > ma_value` (src line 613); otherwise
the panel shows the not-available marker. -/
def maPanel (ma price : Option ℚ) : MaPanel :=
  if pyTruthy ma && pyTruthy price then
    match ma, price with
    | some m, some p => if m < p then .bullish p m else .bearish p m
    | _, _ => .na
  else .na

/-! ### Download file names (src lines 514-517, 537) -/

/-- Python `"_".join(...)`. -/
def joinUnderscore : List (List Nat) → List Nat
  | [] => []
  | [t] => t
  | t :: ts => t ++ 95 :: joinUnderscore ts

/-- The ticker list embedded in the download file names: src line 516 rebuilds
it from `main`'s own `tickers` variable of line 394, which the slicing inside
`build_dashboard` never modified. -/
def filenameTickers (input : List Nat) : List (List Nat) :=
  (parseTickers input).map normCP

/-- The metrics download file name of src line 517, for a given timestamp. -/
def metricsFilename (input : List Nat) (timestamp : List Nat) : List Nat :=
  cps ("stock_analysis_") ++ joinUnderscore (filenameTickers input) ++
    (95 :: timestamp) ++ cps (".csv")

/-! ## Claim theorems -/

/-- C1 counterexample: the claim states that 750000 formats as the
two-decimal millions form, but 750000 is below the 10^6 threshold, so the
code renders it as a plain comma-grouped integer currency string. -/
theorem c1_market_cap_counterexample :
    format_market_cap (some 750000) = "$750,000" ∧
    format_market_cap (some 750000) ≠ "$0.75M" := by decide

/-- C1 (amended): the formatting function selects a suffix by descending
threshold: values at or above 10^12 are divided by 10^12 and rendered with
suffix T and exactly two decimal places, values at or above 10^9 with B,
values at or above 10^6 with M, any other positive value is rendered as a
plain comma-grouped integer currency string, and an absent or zero input
yields the not-available marker; 2500000000000 formats as the string dollar
2.50T, 3400000000 as dollar 3.40B, 7500000 as dollar 7.50M, 750000 (below
10^6) as dollar 750,000, and 999 as dollar 999. -/
theorem c1_market_cap_format (v : Nat) :
    format_market_cap none = "N/A" ∧
    format_market_cap (some 0) = "N/A" ∧
    (1000000000000 ≤ v → format_market_cap (some v) = "$" ++ fixed2 v 1000000000000 ++ "T") ∧
    (1000000000 ≤ v → v < 1000000000000 →
      format_market_cap (some v) = "$" ++ fixed2 v 1000000000 ++ "B") ∧
    (1000000 ≤ v → v < 1000000000 →
      format_market_cap (some v) = "$" ++ fixed2 v 1000000 ++ "M") ∧
    (0 < v → v < 1000000 → format_market_cap (some v) = "$" ++ commaGrouped v) ∧
    format_market_cap (some 2500000000000) = "$2.50T" ∧
    format_market_cap (some 3400000000) = "$3.40B" ∧
    format_market_cap (some 7500000) = "$7.50M" ∧
    format_market_cap (some 750000) = "$750,000" ∧
    format_market_cap (some 999) = "$999" := by
  refine ⟨rfl, by decide, ?_, ?_, ?_, ?_, by decide, by decide, by decide, by decide, by decide⟩
  · intro h
    simp only [format_market_cap]
    split_ifs <;> first | rfl | omega
  · intro h1 h2
    simp only [format_market_cap]
    split_ifs <;> first | rfl | omega
  · intro h1 h2
    simp only [format_market_cap]
    split_ifs <;> first | rfl | omega
  · intro h1 h2
    simp only [format_market_cap]
    split_ifs <;> first | rfl | omega

/-- C1 witness: the threshold branches of the amended claim evaluated at
concrete inputs. -/
theorem c1_market_cap_format_witness :
    format_market_cap (some 2500000000000) = "$" ++ fixed2 2500000000000 1000000000000 ++ "T" ∧
    format_market_cap (some 999) = "$" ++ commaGrouped 999 := by
  refine ⟨(c1_market_cap_format 2500000000000).2.2.1 (by decide), ?_⟩
  exact (c1_market_cap_format 999).2.2.2.2.2.1 (by decide) (by decide)

/-- The latest Wilder-smoothed average of a nonnegative series is nonnegative. -/
theorem wilderRun_nonneg (xs : List ℚ) : ∀ acc : ℚ, 0 ≤ acc → (∀ x ∈ xs, 0 ≤ x) →
    0 ≤ wilderRun acc xs := by
  induction xs with
  | nil => intro acc hacc _; simpa [wilderRun] using hacc
  | cons x xs ih =>
    intro acc hacc hall
    simp only [wilderRun]
    apply ih
    · have hx : 0 ≤ x := hall x (List.mem_cons_self x xs)
      have h1 : (0 : ℚ) ≤ 1 - 1 / 14 := by norm_num
      have h2 : (0 : ℚ) ≤ 1 / 14 := by norm_num
      have := add_nonneg (mul_nonneg h1 hacc) (mul_nonneg h2 hx)
      simpa [wilderStep] using this
    · intro y hy
      exact hall y (List.mem_cons_of_mem _ hy)

/-- `smoothedLast` of a nonnegative series is nonnegative when present. -/
theorem smoothedLast_nonneg (l : List ℚ) (hl : ∀ x ∈ l, 0 ≤ x) (y : ℚ)
    (hy : smoothedLast l = some y) : 0 ≤ y := by
  cases l with
  | nil => simp [smoothedLast] at hy
  | cons x xs =>
    simp only [smoothedLast, Option.some.injEq] at hy
    subst hy
    exact wilderRun_nonneg xs x (hl x (List.mem_cons_self x xs))
      (fun z hz => hl z (List.mem_cons_of_mem _ hz))

/-- Every per-step gain is nonnegative. -/
theorem gainsOf_nonneg (closes : List ℚ) : ∀ x ∈ gainsOf closes, 0 ≤ x := by
  intro x hx
  rw [gainsOf, List.mem_map] at hx
  obtain ⟨d, _, rfl⟩ := hx
  exact le_max_right d 0

/-- Every per-step loss is nonnegative. -/
theorem lossesOf_nonneg (closes : List ℚ) : ∀ x ∈ lossesOf closes, 0 ≤ x := by
  intro x hx
  rw [lossesOf, List.mem_map] at hx
  obtain ⟨d, _, rfl⟩ := hx
  exact le_max_right (-d) 0

/-- C3: for every price series with fewer than 50 closes the surfaced 50-period
moving average is absent, and for every series with at least 50 closes it
equals the arithmetic mean of the last 50 closes (exactly, hence within any
positive tolerance such as 1e-6). -/
theorem c3_moving_average (closes : List ℚ) :
    (closes.length < 50 → surfacedMA closes = none) ∧
    (50 ≤ closes.length →
      surfacedMA closes = some ((closes.drop (closes.length - 50)).sum / (50 : ℚ))) := by
  constructor
  · intro h
    have hall : (rollingMean 50 closes).all Option.isNone = true := by
      rw [List.all_eq_true]
      intro o ho
      rw [rollingMean, List.mem_map] at ho
      obtain ⟨i, hi, rfl⟩ := ho
      rw [List.mem_range] at hi
      rw [if_pos (by omega)]
      rfl
    simp only [surfacedMA, hall]
    rfl
  · intro h
    have hpos : closes.length - 1 + 1 = closes.length := by omega
    have hlast : (rollingMean 50 closes).getLast? =
        some (some ((closes.drop (closes.length - 50)).sum / (50 : ℚ))) := by
      rw [rollingMean, List.getLast?_map]
      have hr : (List.range closes.length).getLast? = some (closes.length - 1) := by
        conv_lhs => rw [← hpos, List.range_succ]
        exact List.getLast?_concat _
      rw [hr]
      simp only [Option.map_some']
      rw [if_neg (by omega), hpos, List.take_length]
      norm_cast
    have hmem := List.mem_of_getLast?_eq_some hlast
    have hall : (rollingMean 50 closes).all Option.isNone = false := by
      cases hcase : (rollingMean 50 closes).all Option.isNone
      · rfl
      · have := List.all_eq_true.mp hcase _ hmem
        simp at this
    simp only [surfacedMA, hall]
    rw [hlast]
    rfl

/-- C3 witness: the two arms of the moving-average claim at concrete series. -/
theorem c3_moving_average_witness :
    surfacedMA [(1 : ℚ), 2, 3] = none ∧
    surfacedMA (List.replicate 50 (2 : ℚ)) =
      some (((List.replicate 50 (2 : ℚ)).drop
        ((List.replicate 50 (2 : ℚ)).length - 50)).sum / (50 : ℚ)) :=
  ⟨(c3_moving_average _).1 (by decide), (c3_moving_average _).2 (by decide)⟩

/-- C4: with fewer than 14 observations the surfaced oscillator value is
absent; every surfaced value lies in the interval from 0 to 100; and a zero
smoothed average loss yields exactly 100. -/
theorem c4_rsi (closes : List ℚ) :
    (closes.length < 14 → surfacedRSI closes = none) ∧
    (∀ v, surfacedRSI closes = some v → 0 ≤ v ∧ v ≤ 100) ∧
    (∀ v, surfacedRSI closes = some v →
      smoothedLast (lossesOf closes) = some 0 → v = 100) := by
  refine ⟨?_, ?_, ?_⟩
  · intro h
    simp only [surfacedRSI]
    rw [if_pos h]
  · intro v hv
    by_cases hlen : closes.length < 14
    · simp only [surfacedRSI] at hv
      rw [if_pos hlen] at hv
      exact absurd hv (by simp)
    · simp only [surfacedRSI] at hv
      rw [if_neg hlen] at hv
      cases hg : smoothedLast (gainsOf closes) with
      | none =>
        rw [hg] at hv
        cases hl : smoothedLast (lossesOf closes) <;> rw [hl] at hv <;> simp at hv
      | some g =>
        cases hl : smoothedLast (lossesOf closes) with
        | none => rw [hg, hl] at hv; simp at hv
        | some l =>
          rw [hg, hl] at hv
          simp only [Option.some.injEq] at hv
          subst hv
          have hgn : 0 ≤ g := smoothedLast_nonneg _ (gainsOf_nonneg closes) g hg
          have hln : 0 ≤ l := smoothedLast_nonneg _ (lossesOf_nonneg closes) l hl
          by_cases hl0 : l = 0
          · rw [if_pos hl0]
            norm_num
          · rw [if_neg hl0]
            have hlpos : 0 < l := lt_of_le_of_ne hln (Ne.symm hl0)
            have hd : 0 ≤ g / l := div_nonneg hgn hlpos.le
            have h1t : (1 : ℚ) ≤ 1 + g / l := by linarith
            have hub : 100 / (1 + g / l) ≤ 100 := div_le_self (by norm_num) h1t
            have hlb : 0 ≤ 100 / (1 + g / l) := div_nonneg (by norm_num) (by linarith)
            constructor <;> linarith
  · intro v hv hl0
    by_cases hlen : closes.length < 14
    · simp only [surfacedRSI] at hv
      rw [if_pos hlen] at hv
      exact absurd hv (by simp)
    · simp only [surfacedRSI] at hv
      rw [if_neg hlen] at hv
      cases hg : smoothedLast (gainsOf closes) with
      | none => rw [hg, hl0] at hv; simp at hv
      | some g =>
        rw [hg, hl0] at hv
        simp only [Option.some.injEq, if_true] at hv
        exact hv.symm

/-- C4 witness: the short-series arm and the in-range arm of the oscillator
claim at concrete series. -/
theorem c4_rsi_witness :
    surfacedRSI [(1 : ℚ), 2, 3] = none ∧
    surfacedRSI (List.replicate 14 (5 : ℚ)) = some 100 ∧
    (0 : ℚ) ≤ 100 ∧ (100 : ℚ) ≤ 100 := by
  have h2 : surfacedRSI (List.replicate 14 (5 : ℚ)) = some 100 := by
    with_unfolding_all rfl
  exact ⟨(c4_rsi _).1 (by decide), h2,
    ((c4_rsi _).2.1 100 h2).1, ((c4_rsi _).2.1 100 h2).2⟩

/-- The parse of src line 394 equals filtering out blank pieces and then
normalising each kept piece. -/
theorem filterMap_strip_eq (ps : List (List Nat)) :
    (ps.filterMap fun p => if pyStripCP p = [] then none else some (normCP p)) =
      (ps.filter fun p => !(pyStripCP p).isEmpty).map normCP := by
  induction ps with
  | nil => rfl
  | cons a as ih =>
    by_cases h : pyStripCP a = []
    · simp [List.filterMap_cons, List.filter_cons, h, ih]
    · simp [List.filterMap_cons, List.filter_cons, h, ih]

/-- C5: the analysed ticker list is the non-empty comma-separated pieces,
trimmed and upper-cased with duplicates preserved positionally, truncated to
ten entries, so its length is the minimum of 10 and the number of non-empty
pieces; the truncation warning fires exactly when more than ten pieces were
parsed. -/
theorem c5_ticker_parsing (input : List Nat) :
    parseTickers input =
      ((splitCommaCP input).filter fun p => !(pyStripCP p).isEmpty).map normCP ∧
    (analyzedTickers input).length =
      min 10 (((splitCommaCP input).filter fun p => !(pyStripCP p).isEmpty).length) ∧
    (truncWarning input = true ↔
      10 < ((splitCommaCP input).filter fun p => !(pyStripCP p).isEmpty).length) := by
  have hp : parseTickers input =
      ((splitCommaCP input).filter fun p => !(pyStripCP p).isEmpty).map normCP :=
    filterMap_strip_eq _
  have hlen : (parseTickers input).length =
      ((splitCommaCP input).filter fun p => !(pyStripCP p).isEmpty).length := by
    rw [hp, List.length_map]
  refine ⟨hp, ?_, ?_⟩
  · simp only [analyzedTickers, ← hlen]
    by_cases h10 : 10 < (parseTickers input).length
    · rw [if_pos h10, List.length_take]
    · rw [if_neg h10]
      omega
  · simp only [truncWarning, ← hlen, decide_eq_true_eq]

/-- A filterMap over a list on which the function always succeeds preserves
the length. -/
theorem length_filterMap_of_isSome {α β : Type} (f : α → Option β) :
    ∀ l : List α, (∀ x ∈ l, (f x).isSome) → (l.filterMap f).length = l.length := by
  intro l
  induction l with
  | nil => intro _; rfl
  | cons a as ih =>
    intro h
    have ha := h a (List.mem_cons_self a as)
    cases hfa : f a with
    | none => rw [hfa] at ha; simp at ha
    | some b =>
      rw [List.filterMap_cons_some hfa]
      simp only [List.length_cons]
      rw [ih (fun x hx => h x (List.mem_cons_of_mem _ hx))]

/-- C6: the aggregated result list is the input ticker order restricted to
successful fetches: when one ticker fails and all others succeed, the result
has one entry fewer than the input and keeps the remaining results in input
order. -/
theorem c6_result_order {α : Type} (fetch : List Nat → Option α)
    (pre post : List (List Nat)) (b : List Nat)
    (hb : fetch (normCP b) = none)
    (hpre : ∀ t ∈ pre, (fetch (normCP t)).isSome)
    (hpost : ∀ t ∈ post, (fetch (normCP t)).isSome) :
    collectData fetch (pre ++ b :: post) =
      collectData fetch pre ++ collectData fetch post ∧
    (collectData fetch (pre ++ b :: post)).length = (pre ++ b :: post).length - 1 := by
  have h1 : collectData fetch (pre ++ b :: post) =
      collectData fetch pre ++ collectData fetch post := by
    simp only [collectData, List.filterMap_append]
    congr 1
    simp only [List.filterMap_cons, hb]
  refine ⟨h1, ?_⟩
  rw [h1]
  simp only [collectData]
  rw [List.length_append, length_filterMap_of_isSome _ pre hpre,
    length_filterMap_of_isSome _ post hpost, List.length_append, List.length_cons]
  omega

/-- C6 witness: a concrete failing ticker between two succeeding ones. -/
theorem c6_result_order_witness :
    collectData (fun t => if t = cps ("BAD") then none else some t)
        ([cps ("aapl")] ++ cps ("BAD") :: [cps ("msft")]) =
      collectData (fun t => if t = cps ("BAD") then none else some t) [cps ("aapl")] ++
        collectData (fun t => if t = cps ("BAD") then none else some t) [cps ("msft")] ∧
    (collectData (fun t => if t = cps ("BAD") then none else some t)
        ([cps ("aapl")] ++ cps ("BAD") :: [cps ("msft")])).length =
      ([cps ("aapl")] ++ cps ("BAD") :: [cps ("msft")]).length - 1 :=
  c6_result_order _ [cps ("aapl")] [cps ("msft")] (cps ("BAD"))
    (by decide) (by decide) (by decide)

/-- Splitting never yields an empty list of pieces. -/
theorem splitCommaCP_ne_nil (l : List Nat) : splitCommaCP l ≠ [] := by
  cases l with
  | nil => simp [splitCommaCP]
  | cons c cs =>
    simp only [splitCommaCP]
    split <;> simp

/-- Every code point of every piece of a split comes from the input. -/
theorem splitCommaCP_subset :
    ∀ (l : List Nat), ∀ p ∈ splitCommaCP l, ∀ c ∈ p, c ∈ l := by
  intro l
  induction l with
  | nil =>
    intro p hp c hc
    simp [splitCommaCP] at hp
    subst hp
    simp at hc
  | cons a as ih =>
    intro p hp c hc
    simp only [splitCommaCP] at hp
    by_cases ha : a = 44
    · rw [if_pos ha] at hp
      rcases List.mem_cons.mp hp with h1 | h2
      · subst h1; simp at hc
      · exact List.mem_cons_of_mem _ (ih p h2 c hc)
    · rw [if_neg ha] at hp
      cases hs : splitCommaCP as with
      | nil => exact absurd hs (splitCommaCP_ne_nil as)
      | cons q qs =>
        rw [hs] at hp
        simp only [List.headD_cons, List.tail_cons] at hp
        rcases List.mem_cons.mp hp with h1 | h2
        · subst h1
          rcases List.mem_cons.mp hc with h3 | h4
          · subst h3; exact List.mem_cons_self _ _
          · refine List.mem_cons_of_mem _ (ih q ?_ c h4)
            rw [hs]; exact List.mem_cons_self _ _
        · refine List.mem_cons_of_mem _ (ih p ?_ c hc)
          rw [hs]; exact List.mem_cons_of_mem _ h2

/-- Stripping a whitespace-only piece leaves nothing. -/
theorem pyStripCP_of_all_space (l : List Nat) (h : ∀ c ∈ l, isPySpaceCP c = true) :
    pyStripCP l = [] := by
  have h1 : l.dropWhile isPySpaceCP = [] := List.dropWhile_eq_nil_iff.mpr h
  rw [pyStripCP, h1]
  rfl

/-- A whitespace-only input parses to no tickers. -/
theorem parseTickers_of_all_space (input : List Nat)
    (h : ∀ c ∈ input, isPySpaceCP c = true) : parseTickers input = [] := by
  rw [parseTickers, List.filterMap_eq_nil_iff]
  intro p hp
  have hsp : pyStripCP p = [] :=
    pyStripCP_of_all_space p (fun c hc => h c (splitCommaCP_subset input p hp c hc))
  rw [if_pos hsp]

/-- C7: an empty or whitespace-only input makes a triggered run report the
no-valid-ticker sentinel, attempt no fetch, and render no chart, for every
provider. -/
theorem c7_whitespace_no_analysis {α : Type} (fetch : List Nat → Option α)
    (input : List Nat) (h : ∀ c ∈ input, isPySpaceCP c = true) :
    runMain fetch input = ⟨MainOutcome.noValidTicker, [], 0⟩ := by
  have hp := parseTickers_of_all_space input h
  simp only [runMain, hp]
  rfl

/-- C7 witness: a whitespace-only input evaluated concretely. -/
theorem c7_whitespace_no_analysis_witness :
    runMain (fun _ => (none : Option Unit)) (cps ("  ")) =
      ⟨MainOutcome.noValidTicker, [], 0⟩ :=
  c7_whitespace_no_analysis _ _ (by decide)

/-- C2: with a provider that fails on every ticker, `build_dashboard` itself
returns the bare empty-frame sentinel, but the tuple unpacking in `main`
then raises, so the zero-success run aborts with an error instead of
reaching the no-data handling. -/
theorem c2_zero_success_fatal :
    buildDashboard (fun _ => (none : Option Unit)) (parseTickers (cps ("INVALIDXYZ"))) =
      BuildResult.emptyFrame ∧
    runMain (fun _ => (none : Option Unit)) (cps ("INVALIDXYZ")) =
      ⟨MainOutcome.unpackError ("ValueError: not enough values to unpack (expected 2, got 0)"),
        [cps ("INVALIDXYZ")], 0⟩ := by decide

/-- When every exact query fails, the inner option loop yields nothing. -/
theorem tryOptions_none (qE : String → WikiResult)
    (hE : ∀ t, isSummaryResult (qE t) = false) :
    ∀ os : List String, tryOptions qE os = none := by
  intro os
  induction os with
  | nil => rfl
  | cons o os ih =>
    have h := hE o
    simp only [tryOptions]
    cases hq : qE o with
    | summary s => rw [hq] at h; simp [isSummaryResult] at h
    | disambig opts => exact ih
    | pageError => exact ih
    | otherError => exact ih

/-- When every exact query fails, a disambiguation outcome degrades fully. -/
theorem handleDisambig_none (qE : String → WikiResult)
    (hE : ∀ t, isSummaryResult (qE t) = false) (options : List String) :
    handleDisambig qE options = none := by
  have ht := tryOptions_none qE hE (options.filter isBusinessOption)
  cases options with
  | nil => rfl
  | cons o os =>
    have h := hE o
    cases hq : qE o with
    | summary s => rw [hq] at h; simp [isSummaryResult] at h
    | disambig x => simp [handleDisambig, ht, hq]
    | pageError => simp [handleDisambig, ht, hq]
    | otherError => simp [handleDisambig, ht, hq]

/-- When every query fails, one search term yields nothing. -/
theorem tryTerm_none (qS qE : String → WikiResult)
    (hS : ∀ t, isSummaryResult (qS t) = false)
    (hE : ∀ t, isSummaryResult (qE t) = false) (term : String) :
    tryTerm qS qE term = none := by
  have h := hS term
  cases hq : qS term with
  | summary s => rw [hq] at h; simp [isSummaryResult] at h
  | disambig opts => simp [tryTerm, hq, handleDisambig_none qE hE]
  | pageError => simp [tryTerm, hq]
  | otherError => simp [tryTerm, hq]

/-- When every query fails, the whole fallback loop yields nothing. -/
theorem firstSummary_none (qS qE : String → WikiResult)
    (hS : ∀ t, isSummaryResult (qS t) = false)
    (hE : ∀ t, isSummaryResult (qE t) = false) :
    ∀ ts : List String, firstSummary qS qE ts = none := by
  intro ts
  induction ts with
  | nil => rfl
  | cons t ts ih => simp [firstSummary, tryTerm_none qS qE hS hE t, ih]

/-- C8: the description lookup tries the bounded fallback sequence in the
order company-name plus suffix variants, then ticker plus context variants,
then the bare ticker, and when no query outcome is a summary the function
returns the fixed placeholder string rather than propagating any error. -/
theorem c8_summary_fallback (qS qE : String → WikiResult)
    (companyName : Option String) (ticker nm : String)
    (hS : ∀ t, isSummaryResult (qS t) = false)
    (hE : ∀ t, isSummaryResult (qE t) = false) :
    get_wikipedia_summary qS qE companyName ticker = "Wikipedia summary not found." ∧
    searchTerms (some nm) ticker =
      [nm ++ " Inc", nm ++ " Corporation", nm ++ " Company", nm,
        ticker ++ " stock", ticker ++ " company", ticker ++ " corporation", ticker] := by
  refine ⟨?_, rfl⟩
  simp [get_wikipedia_summary, firstSummary_none qS qE hS hE]

/-- C8 witness: concrete oracles that always disambiguate or fail. -/
theorem c8_summary_fallback_witness :
    get_wikipedia_summary (fun _ => WikiResult.disambig ["ACME Inc", "ACME River"])
        (fun _ => WikiResult.pageError) (some ("ACME")) ("ACME") =
      "Wikipedia summary not found." :=
  (c8_summary_fallback (fun _ => WikiResult.disambig ["ACME Inc", "ACME River"])
    (fun _ => WikiResult.pageError) (some ("ACME")) ("ACME") ("ACME")
    (fun _ => rfl) (fun _ => rfl)).1

/-- C9: a present-but-zero RSI, moving average, or current price is displayed
as the not-available marker, because presence is tested by numeric truthiness
rather than by comparison with the absent sentinel. -/
theorem c9_zero_displayed_na (ma price : Option ℚ) :
    rsiPanel (some 0) = RsiPanel.na ∧
    maPanel (some 0) price = MaPanel.na ∧
    maPanel ma (some 0) = MaPanel.na := by
  have h0 : pyTruthy (some 0) = false := by simp [pyTruthy]
  refine ⟨?_, ?_, ?_⟩
  · simp [rsiPanel, h0]
  · simp [maPanel, h0]
  · simp [maPanel, h0, Bool.and_false]

/-- Dropping a satisfying prefix twice is the same as dropping it once. -/
theorem dropWhile_dropWhile {α : Type} (p : α → Bool) :
    ∀ l : List α, (l.dropWhile p).dropWhile p = l.dropWhile p := by
  intro l
  induction l with
  | nil => rfl
  | cons a as ih =>
    rw [List.dropWhile_cons]
    by_cases h : p a = true
    · rw [if_pos h, ih]
    · rw [if_neg h, List.dropWhile_cons, if_neg h]

/-- The head surviving a dropWhile fails the predicate. -/
theorem dropWhile_head_false {α : Type} (p : α → Bool) :
    ∀ (l : List α) (x : α) (xs : List α), l.dropWhile p = x :: xs → p x = false := by
  intro l
  induction l with
  | nil => intro x xs h; simp at h
  | cons a as ih =>
    intro x xs h
    rw [List.dropWhile_cons] at h
    by_cases ha : p a = true
    · rw [if_pos ha] at h
      exact ih x xs h
    · rw [if_neg ha] at h
      injection h with h1 h2
      subst h1
      simp [Bool.not_eq_true] at ha
      exact ha

/-- A nonempty dropWhile keeps the last element. -/
theorem getLast?_dropWhile {α : Type} (p : α → Bool) (l : List α)
    (h : l.dropWhile p ≠ []) : (l.dropWhile p).getLast? = l.getLast? := by
  induction l with
  | nil => simp at h
  | cons a as ih =>
    rw [List.dropWhile_cons] at h ⊢
    by_cases ha : p a = true
    · rw [if_pos ha] at h ⊢
      rw [ih h]
      have hne : as ≠ [] := by
        intro he
        rw [he] at h
        simp at h
      cases as with
      | nil => exact absurd rfl hne
      | cons b bs => rw [List.getLast?_cons_cons]
    · rw [if_neg ha]

/-- Python strip is idempotent. -/
theorem pyStripCP_idem (l : List Nat) : pyStripCP (pyStripCP l) = pyStripCP l := by
  cases hB : (l.dropWhile isPySpaceCP).reverse.dropWhile isPySpaceCP with
  | nil =>
    have hl : pyStripCP l = [] := by rw [pyStripCP, hB]; rfl
    rw [hl]
    rfl
  | cons x xs =>
    have hl : pyStripCP l = (x :: xs).reverse := by rw [pyStripCP, hB]
    have hA : l.dropWhile isPySpaceCP ≠ [] := by
      intro he
      rw [he] at hB
      simp at hB
    obtain ⟨a, as, hAeq⟩ : ∃ a as, l.dropWhile isPySpaceCP = a :: as := by
      cases hA2 : l.dropWhile isPySpaceCP with
      | nil => exact absurd hA2 hA
      | cons a as => exact ⟨a, as, rfl⟩
    have hpa : isPySpaceCP a = false := dropWhile_head_false _ l a as hAeq
    have hBlast : (x :: xs).getLast? = some a := by
      rw [← hB, getLast?_dropWhile _ _ (by rw [hB]; simp), List.getLast?_reverse, hAeq]
      rfl
    have hfront : ((x :: xs).reverse).dropWhile isPySpaceCP = (x :: xs).reverse := by
      obtain ⟨c, cs, hrev⟩ : ∃ c cs, (x :: xs).reverse = c :: cs := by
        cases hr : (x :: xs).reverse with
        | nil =>
          have := congrArg List.length hr
          simp at this
        | cons c cs => exact ⟨c, cs, rfl⟩
      have hc : c = a := by
        have hh := List.head?_reverse (x :: xs)
        rw [hrev, hBlast] at hh
        simpa using hh
      rw [hrev, List.dropWhile_cons, hc, hpa]
      simp
    rw [hl, pyStripCP, hfront, List.reverse_reverse, ← hB, dropWhile_dropWhile, hB]

/-- Python upper is idempotent on one code point. -/
theorem pyUpperCP_idem (c : Nat) : pyUpperCP (pyUpperCP c) = pyUpperCP c := by
  by_cases h : 97 ≤ c ∧ c ≤ 122
  · have h1 : pyUpperCP c = c - 32 := by rw [pyUpperCP, if_pos h]
    rw [h1, pyUpperCP, if_neg (by omega)]
  · have h1 : pyUpperCP c = c := by rw [pyUpperCP, if_neg h]
    rw [h1, h1]

/-- Upper-casing does not change whether a code point is whitespace. -/
theorem isPySpaceCP_upper (c : Nat) : isPySpaceCP (pyUpperCP c) = isPySpaceCP c := by
  by_cases h : 97 ≤ c ∧ c ≤ 122
  · rw [pyUpperCP, if_pos h, isPySpaceCP, isPySpaceCP]
    simp only [decide_eq_decide]
    omega
  · rw [pyUpperCP, if_neg h]

/-- Strip commutes with upper-casing. -/
theorem pyStripCP_map_upper (l : List Nat) :
    pyStripCP (l.map pyUpperCP) = (pyStripCP l).map pyUpperCP := by
  have hcomp : (isPySpaceCP ∘ pyUpperCP) = isPySpaceCP := funext isPySpaceCP_upper
  rw [pyStripCP, pyStripCP, List.dropWhile_map, hcomp, ← List.map_reverse,
    List.dropWhile_map, hcomp, ← List.map_reverse]

/-- Normalisation is idempotent. -/
theorem normCP_idem (l : List Nat) : normCP (normCP l) = normCP l := by
  show (pyStripCP ((pyStripCP l).map pyUpperCP)).map pyUpperCP = (pyStripCP l).map pyUpperCP
  rw [pyStripCP_map_upper, pyStripCP_idem, List.map_map]
  exact List.map_congr_left (fun a _ => pyUpperCP_idem a)

/-- Every parsed ticker is already normalised. -/
theorem parseTickers_norm_fixed (input : List Nat) :
    ∀ t ∈ parseTickers input, normCP t = t := by
  intro t ht
  rw [parseTickers, List.mem_filterMap] at ht
  obtain ⟨p, hp, hpt⟩ := ht
  by_cases h : pyStripCP p = []
  · rw [if_pos h] at hpt
    exact absurd hpt (by simp)
  · rw [if_neg h] at hpt
    have heq := Option.some.inj hpt
    subst heq
    exact normCP_idem p

/-- C10: with more than ten parsed tickers, the ticker list embedded in the
download file names is the full untruncated parsed list, while the analysis
covers only the first ten, so the two lists disagree. -/
theorem c10_filename_untruncated (input : List Nat)
    (h : 10 < (parseTickers input).length) :
    filenameTickers input = parseTickers input ∧
    analyzedTickers input = (parseTickers input).take 10 ∧
    filenameTickers input ≠ analyzedTickers input := by
  have h1 : filenameTickers input = parseTickers input := by
    rw [filenameTickers]
    conv_rhs => rw [← List.map_id (parseTickers input)]
    exact List.map_congr_left (fun a ha => parseTickers_norm_fixed input a ha)
  have h2 : analyzedTickers input = (parseTickers input).take 10 := by
    simp only [analyzedTickers]
    rw [if_pos h]
  refine ⟨h1, h2, ?_⟩
  intro he
  rw [h1, h2] at he
  have hlen := congrArg List.length he
  rw [List.length_take] at hlen
  omega

/-- C10 witness: an eleven-ticker input evaluated concretely. -/
theorem c10_filename_untruncated_witness :
    filenameTickers (cps ("A,B,C,D,E,F,G,H,I,J,K")) ≠
      analyzedTickers (cps ("A,B,C,D,E,F,G,H,I,J,K")) :=
  (c10_filename_untruncated _ (by decide)).2.2

end StockApp
